import Mathlib

/-!
Verification of the CodeHermit review-orchestration CLI.

The definitions below are a shallow embedding of the TypeScript sources:
`src/cli.ts` (argument parsing, artifact naming), `src/review.ts`
(runReview event handlers), `src/get-diff.ts` (ref rewriting and diff
acquisition) and `src/plugins/azure.ts` (PR-URL parsing, ref stripping,
environment-variable precedence).  JavaScript strings are modelled as
Lean strings (lists of characters), possibly-undefined values as Option,
and JavaScript truthiness is made explicit.  The asynchronous agent
supervisor is modelled as a state machine over the event callbacks the
code registers, emitting a list of observable actions.
-/

namespace CodeHermit

/-- JS truthiness of a possibly-undefined string: undefined and "" are falsy. -/
def truthyStr : Option String → Bool
  | none => false
  | some s => decide (s ≠ "")

/-- The character list p is a prefix of s (JS String.startsWith, per character). -/
def isPfxL : List Char → List Char → Bool
  | [], _ => true
  | _ :: _, [] => false
  | p :: ps, s :: ss => p == s && isPfxL ps ss

/-- JS String.includes: pat occurs contiguously somewhere in s. -/
def hasSubL (pat : List Char) : List Char → Bool
  | [] => isPfxL pat []
  | c :: cs => isPfxL pat (c :: cs) || hasSubL pat cs

/-- JS s.includes(pat) on Lean strings. -/
def containsSub (s pat : String) : Bool := hasSubL pat.data s.data

/-- The character class of the JS regular-expression whitespace escape. -/
def isJsSpace (c : Char) : Bool :=
  let n := c.toNat
  n == 32 || n == 9 || n == 10 || n == 13 || n == 11 || n == 12 ||
  n == 0xa0 || n == 0x1680 || (decide (0x2000 ≤ n) && decide (n ≤ 0x200a)) ||
  n == 0x2028 || n == 0x2029 || n == 0x202f || n == 0x205f ||
  n == 0x3000 || n == 0xfeff

/-- First replacement of cli.ts sanitizeBranchForFile: path separators to underscore. -/
def sepToUnderscore (c : Char) : Char := if c == '/' || c == '\\' then '_' else c

/-- Second replacement of cli.ts sanitizeBranchForFile: whitespace to underscore. -/
def wsToUnderscore (c : Char) : Char := if isJsSpace c then '_' else c

/-- cli.ts sanitizeBranchForFile: branch.replace separators, then whitespace, with underscores. -/
def sanitizeBranchForFile (branch : String) : String :=
  String.mk ((branch.data.map sepToUnderscore).map wsToUnderscore)

/-- get-diff.ts DIFF_FILE_BASE. -/
def DIFF_FILE_BASE : String := ".codehermit-diff.txt"

/-- cli.ts OUTPUT_FILE_BASE. -/
def OUTPUT_FILE_BASE : String := ".codehermit-output.md"

/-- JS truthiness of the optional numeric prId: undefined and 0 are falsy. -/
def prIdTruthy : Option Nat → Bool
  | none => false
  | some n => decide (n ≠ 0)

/-- The sanitized branch slug embedded into artifact names by cli.ts. -/
def branchSlug (base head : String) : String :=
  sanitizeBranchForFile base ++ "_" ++ sanitizeBranchForFile head

/-- cli.ts diffFileName: the conditional chain choosing the diff artifact name. -/
def diffFileName (prId : Option Nat) (outputDirRequested : Bool) (base head : String) : String :=
  if prIdTruthy prId then "." ++ toString (prId.getD 0) ++ ".codehermit-diff.txt"
  else if outputDirRequested then "." ++ branchSlug base head ++ ".codehermit-diff.txt"
  else DIFF_FILE_BASE

/-- cli.ts outputFileName: the conditional chain choosing the review artifact name. -/
def outputFileName (prId : Option Nat) (outputDirRequested : Bool) (base head : String) : String :=
  if prIdTruthy prId then "." ++ toString (prId.getD 0) ++ ".codehermit-output.md"
  else if outputDirRequested then "." ++ branchSlug base head ++ ".codehermit-output.md"
  else OUTPUT_FILE_BASE

/-- azure.ts PrDetails. -/
structure PrDetails where
  repository : String
  sourceBranch : String
  targetBranch : String
  pullRequestId : Nat
  deriving DecidableEq

/-- The raw JSON fields returned by the Azure DevOps pull-request endpoint. -/
structure RawPullRequest where
  pullRequestId : Nat
  repositoryName : String
  sourceRefName : String
  targetRefName : String

/-- azure.ts REFS_HEADS. -/
def REFS_HEADS : String := "refs/heads/"

/-- azure.ts stripRefsHeads: drop one leading refs/heads/ marker if present. -/
def stripRefsHeads (ref : String) : String :=
  if isPfxL REFS_HEADS.data ref.data then String.mk (ref.data.drop REFS_HEADS.data.length)
  else ref

/-- azure.ts getPrDetails success path: the field mapping from the provider JSON. -/
def mkPrDetails (raw : RawPullRequest) : PrDetails :=
  { repository := raw.repositoryName,
    sourceBranch := stripRefsHeads raw.sourceRefName,
    targetBranch := stripRefsHeads raw.targetRefName,
    pullRequestId := raw.pullRequestId }

/-- Node path.join for the two-segment case used by cli.ts. -/
def joinPath (a b : String) : String :=
  if a = "" then b
  else if a.data.getLast? = some '/' then a ++ b
  else a ++ "/" ++ b

/-- The fully resolved review target assembled by cli.ts main. -/
structure ResolvedTarget where
  repoPath : String
  baseBranch : String
  headBranch : String
  prId : Option Nat
  deriving DecidableEq

/-- cli.ts main, PR branch: assignment of the resolved PR details. -/
def resolvePrTarget (reposRoot repoName : String) (details : PrDetails) : ResolvedTarget :=
  { repoPath := joinPath reposRoot repoName,
    baseBranch := details.targetBranch,
    headBranch := details.sourceBranch,
    prId := some details.pullRequestId }

/-- Outcome of one synchronous execSync call: success with stdout, or a
failure that may still carry captured stdout (none models a missing field). -/
inductive ExecOutcome where
  | success (out : String)
  | failure (captured : Option String)
  deriving DecidableEq

/-- get-diff.ts toRef: prefix bare branch names with origin/. -/
def toRef (ref : String) : String :=
  if isPfxL "origin/".data ref.data || isPfxL "refs/".data ref.data then ref
  else "origin/" ++ ref

/-- get-diff.ts getDiffContent: the git command it builds. -/
def diffCommand (base head : String) : String :=
  "git diff " ++ toRef base ++ "..." ++ toRef head

/-- get-diff.ts getDiffContent: on failure return captured stdout when truthy,
otherwise fail with a diff error. -/
def getDiffContent (exec : String → ExecOutcome) (base head : String) : Except String String :=
  match exec (diffCommand base head) with
  | ExecOutcome.success out => Except.ok out
  | ExecOutcome.failure cap =>
      if truthyStr cap then Except.ok (cap.getD "") else Except.error "Failed to get diff"

/-- The six environment variables consulted by azure.ts getAzureConfig. -/
structure AzureEnv where
  azureOrgUrl : Option String := none
  azureDevopsOrg : Option String := none
  azureProject : Option String := none
  azureDevopsProject : Option String := none
  azurePat : Option String := none
  azureDevopsPat : Option String := none
  deriving DecidableEq

/-- The resolved Azure configuration triple. -/
structure AzureConfig where
  orgUrl : Option String
  project : Option String
  pat : Option String
  deriving DecidableEq

/-- JS a or-else b on possibly-undefined strings: b when a is undefined or empty. -/
def jsOr (a b : Option String) : Option String := if truthyStr a then a else b

/-- azure.ts getAzureConfig: resolve the org URL, project and PAT from both
accepted naming variants. -/
def getAzureConfig (env : AzureEnv) : AzureConfig :=
  { orgUrl :=
      if truthyStr env.azureOrgUrl then env.azureOrgUrl
      else if truthyStr env.azureDevopsOrg then
        some ("https://dev.azure.com/" ++ env.azureDevopsOrg.getD "")
      else none,
    project := jsOr env.azureProject env.azureDevopsProject,
    pat := jsOr env.azurePat env.azureDevopsPat }

/-- The optional fields produced by cli.ts parseArgs. -/
structure ParsedArgs where
  prIdOrUrl : Option String := none
  base : Option String := none
  head : Option String := none
  repo : Option String := none
  outputDir : Option String := none
  deriving DecidableEq

/-- The JS regular expression matching a fully numeric token. -/
def isAllDigits (s : String) : Bool := decide (s ≠ "") && s.data.all Char.isDigit

/-- cli.ts positional classification: token contains both Azure URL markers. -/
def looksLikeAzurePrUrl (s : String) : Bool :=
  containsSub s "dev.azure.com" && containsSub s "pullrequest"

/-- cli.ts parseArgs while-loop over the index i; the fuel argument only bounds
the iteration count and is always large enough (each branch increases i). -/
def parseArgsLoop (argv : List String) : Nat → Nat → ParsedArgs → ParsedArgs
  | 0, _, acc => acc
  | Nat.succ fuel, i, acc =>
    if argv.length ≤ i then acc
    else
      let arg := argv.getD i ""
      if arg = "--pr" ∨ arg = "-p" then
        parseArgsLoop argv fuel (i + 2) { acc with prIdOrUrl := argv.get? (i + 1) }
      else if arg = "--output-dir" ∨ arg = "-o" then
        parseArgsLoop argv fuel (i + 2) { acc with outputDir := argv.get? (i + 1) }
      else if arg = "--base" ∨ arg = "-b" then
        parseArgsLoop argv fuel (i + 2) { acc with base := argv.get? (i + 1) }
      else if arg = "--head" ∨ arg = "-h" then
        parseArgsLoop argv fuel (i + 2) { acc with head := argv.get? (i + 1) }
      else if arg = "--repo" ∨ arg = "-r" then
        parseArgsLoop argv fuel (i + 2) { acc with repo := argv.get? (i + 1) }
      else if isPfxL ['-'] arg.data then
        parseArgsLoop argv fuel (i + 1) acc
      else if !truthyStr acc.prIdOrUrl && !truthyStr acc.base then
        if isAllDigits arg then
          parseArgsLoop argv fuel (i + 1) { acc with prIdOrUrl := some arg }
        else if looksLikeAzurePrUrl arg then
          parseArgsLoop argv fuel (i + 1) { acc with prIdOrUrl := some arg }
        else
          parseArgsLoop argv fuel (i + 3) { acc with base := some arg, head := argv.get? (i + 1) }
      else parseArgsLoop argv fuel (i + 1) acc

/-- cli.ts parseArgs. -/
def parseArgs (argv : List String) : ParsedArgs :=
  parseArgsLoop argv (argv.length + 1) 0 {}

/-- The four fields azure.ts parsePrUrl extracts from a PR URL. -/
structure PrUrlParts where
  org : String
  project : String
  repository : String
  prId : String
  deriving DecidableEq

/-- Split a character list at the first occurrence of pat, when present. -/
def breakAtSub (pat : List Char) : List Char → Option (List Char × List Char)
  | [] => if isPfxL pat [] then some ([], []) else none
  | c :: cs =>
    if isPfxL pat (c :: cs) then some ([], List.drop pat.length (c :: cs))
    else
      match breakAtSub pat cs with
      | none => none
      | some (pre, post) => some (c :: pre, post)

/-- Characters allowed in a URL scheme. -/
def isSchemeChar (c : Char) : Bool := c.isAlpha || c.isDigit || c == '+' || c == '-' || c == '.'

/-- Model of the WHATWG URL constructor, restricted to what azure.ts needs:
for an absolute URL of the form scheme://host/path the pathname component is
returned; strings that do not have that form (the constructor throws) give
none.  Query and fragment are excluded from the pathname, and a URL with no
path has pathname "/". -/
def urlPath (s : String) : Option String :=
  match breakAtSub "://".data s.data with
  | none => none
  | some (scheme, rest) =>
    match scheme with
    | [] => none
    | c :: cs =>
      if !(c.isAlpha && (c :: cs).all isSchemeChar) then none
      else
        let host := rest.takeWhile (fun x => !(x == '/' || x == '?' || x == '#'))
        let tail := rest.dropWhile (fun x => !(x == '/' || x == '?' || x == '#'))
        if host.isEmpty then none
        else
          match tail with
          | '/' :: _ => some (String.mk (tail.takeWhile (fun x => !(x == '?' || x == '#'))))
          | _ => some "/"

/-- JS String.trim: strip leading and trailing whitespace. -/
def trimStr (s : String) : String :=
  String.mk (((s.data.dropWhile isJsSpace).reverse.dropWhile isJsSpace).reverse)

/-- Split a character list on a separator character (JS String.split). -/
def splitCharAux (sep : Char) : List Char → List Char → List (List Char)
  | [], acc => [acc.reverse]
  | c :: cs, acc =>
    if c == sep then acc.reverse :: splitCharAux sep cs []
    else splitCharAux sep cs (c :: acc)

/-- azure.ts: u.pathname.split slash, filtered by Boolean (non-empty segments). -/
def segsOf (p : String) : List String :=
  ((splitCharAux '/' p.data []).filter (fun l => !l.isEmpty)).map (fun l => String.mk l)

/-- JS Array.indexOf, as an Option instead of -1. -/
def idxOf (x : String) : List String → Option Nat
  | [] => none
  | a :: as => if a = x then some 0 else (idxOf x as).map (fun n => n + 1)

/-- azure.ts parsePrUrl: marker filter, URL parse, then index-based extraction
of org, project, repository and PR id from the path segments. -/
def parsePrUrl (url : String) : Option PrUrlParts :=
  let trimmed := trimStr url
  if !containsSub trimmed "dev.azure.com" || !containsSub trimmed "pullrequest" then none
  else
    match urlPath trimmed with
    | none => none
    | some pathname =>
      let pathParts := segsOf pathname
      match idxOf "pullrequest" pathParts with
      | none => none
      | some pri =>
        if pathParts.length - 1 ≤ pri then none
        else
          let prId := pathParts.getD (pri + 1) ""
          match idxOf "_git" pathParts with
          | none => none
          | some gi =>
            if pathParts.length - 1 ≤ gi then none
            else
              let repository := pathParts.getD (gi + 1) ""
              if pathParts.length < 2 then none
              else some { org := pathParts.getD 0 "", project := pathParts.getD 1 "",
                          repository := repository, prId := prId }

/-- The fixed PR-URL path shape of the specification:
org / project / _git / repository / pullrequest / id. -/
def isFixedShapeParts : List String → Bool
  | [_, _, g, _, q, _] => g == "_git" && q == "pullrequest"
  | _ => false

/-- The stream and process events delivered to the callbacks runReview
registers (stdout data, stdout end, child error, child exit). -/
inductive AgentEvent where
  | evData (chunk : String)
  | streamEnd
  | procError (enoent : Bool)
  | procExit (code : Option Int)
  deriving DecidableEq

/-- The observable actions runReview performs: spinner cancellation, the
stderr line-clear sequence, terminal echo, file write, file close, the
completion and error messages, and the host process exit. -/
inductive Act where
  | cancelSpinner
  | clearLine
  | echo (chunk : String)
  | fileWrite (chunk : String)
  | fileClose
  | msgSaved
  | msgNotFound
  | msgError
  | procHalt (code : Int)
  deriving DecidableEq

/-- The mutable state of one runReview invocation. -/
structure AgentState where
  firstChunk : Bool
  spinnerOn : Bool
  fileOpen : Bool
  deriving DecidableEq

/-- State at the moment the handlers are registered. -/
def initState : AgentState := { firstChunk := true, spinnerOn := true, fileOpen := true }

/-- clearInterval: cancels the spinner when it is still running; a no-op afterwards. -/
def doCancel (st : AgentState) : AgentState × List Act :=
  if st.spinnerOn then ({ st with spinnerOn := false }, [Act.cancelSpinner]) else (st, [])

/-- fileStream.end: closes the stream when open; a no-op afterwards. -/
def doClose (st : AgentState) : AgentState × List Act :=
  if st.fileOpen then ({ st with fileOpen := false }, [Act.fileClose]) else (st, [])

/-- review.ts stdout data handler. -/
def onData (st : AgentState) (chunk : String) : AgentState × List Act :=
  if st.firstChunk then
    let p := doCancel { st with firstChunk := false }
    (p.1, p.2 ++ [Act.clearLine, Act.echo chunk, Act.fileWrite chunk])
  else (st, [Act.echo chunk, Act.fileWrite chunk])

/-- review.ts stdout end handler. -/
def onEnd (st : AgentState) : AgentState × List Act :=
  let p := if st.firstChunk then doCancel st else (st, [])
  let q := doClose p.1
  (q.1, p.2 ++ [Act.clearLine] ++ q.2)

/-- review.ts child error handler. -/
def onError (st : AgentState) (enoent : Bool) : AgentState × List Act :=
  let p := doCancel st
  let q := doClose p.1
  (q.1, p.2 ++ [Act.clearLine] ++ q.2 ++
    [if enoent then Act.msgNotFound else Act.msgError, Act.procHalt 1])

/-- review.ts child exit handler. -/
def onExit (st : AgentState) (code : Option Int) : AgentState × List Act :=
  let p := doCancel st
  let q := doClose p.1
  (q.1, p.2 ++ [Act.clearLine] ++ q.2 ++ [Act.msgSaved, Act.procHalt (code.getD 0)])

/-- Dispatch one event to its handler. -/
def step (st : AgentState) : AgentEvent → AgentState × List Act
  | AgentEvent.evData c => onData st c
  | AgentEvent.streamEnd => onEnd st
  | AgentEvent.procError b => onError st b
  | AgentEvent.procExit c => onExit st c

/-- Run a sequence of events from a state, collecting the emitted actions in order. -/
def runEvents : AgentState → List AgentEvent → AgentState × List Act
  | st, [] => (st, [])
  | st, e :: es =>
    let p := step st e
    let q := runEvents p.1 es
    (q.1, p.2 ++ q.2)

/-- Actions emitted by one invocation processing the given event sequence. -/
def actsOf (evs : List AgentEvent) : List Act := (runEvents initState evs).2

/-- Final state of one invocation processing the given event sequence. -/
def finalStateOf (evs : List AgentEvent) : AgentState := (runEvents initState evs).1

/-- Number of occurrences of an action in an emitted action list. -/
def countAct (a : Act) : List Act → Nat
  | [] => 0
  | x :: xs => (if x = a then 1 else 0) + countAct a xs

/-- The host-process exit codes requested in an emitted action list, in order. -/
def haltCodes : List Act → List Int
  | [] => []
  | Act.procHalt k :: xs => k :: haltCodes xs
  | _ :: xs => haltCodes xs

/-- Actions emitted for a sequence of non-first data chunks. -/
def echoActs : List String → List Act
  | [] => []
  | c :: cs => Act.echo c :: Act.fileWrite c :: echoActs cs

/-- State after the first chunk has been handled: spinner cancelled, file open. -/
def streamingState : AgentState := { firstChunk := false, spinnerOn := false, fileOpen := true }

/-- String append acts as list append on the character data. -/
theorem data_append (a b : String) : (a ++ b).data = a.data ++ b.data := rfl

/-- A character list is a prefix of itself followed by anything. -/
theorem isPfxL_append (l m : List Char) : isPfxL l (l ++ m) = true := by
  induction l with
  | nil => rfl
  | cons c cs ih => simp [isPfxL, ih]

/-- stripRefsHeads removes exactly one leading refs/heads/ marker. -/
theorem stripRefsHeads_append (s : String) : stripRefsHeads ("refs/heads/" ++ s) = s := by
  have h : ("refs/heads/" ++ s).data = REFS_HEADS.data ++ s.data := rfl
  simp only [stripRefsHeads, h, isPfxL_append, if_true, List.drop_left]

/-- A sanitized character is never a separator and never whitespace. -/
theorem wsSep_safe (c1 : Char) :
    wsToUnderscore (sepToUnderscore c1) ≠ '/' ∧ wsToUnderscore (sepToUnderscore c1) ≠ '\\' ∧
    isJsSpace (wsToUnderscore (sepToUnderscore c1)) = false := by
  unfold sepToUnderscore wsToUnderscore
  by_cases h1 : (c1 == '/' || c1 == '\\') = true
  · simp only [h1, if_true]
    by_cases h2 : isJsSpace '_' = true
    · exact absurd h2 (by decide)
    · simp only [if_neg h2]
      refine ⟨by decide, by decide, by decide⟩
  · simp only [h1, if_false, Bool.false_eq_true]
    by_cases h2 : isJsSpace c1 = true
    · simp only [h2, if_true]
      refine ⟨by decide, by decide, by decide⟩
    · simp only [if_neg h2]
      have h3 : c1 ≠ '/' ∧ c1 ≠ '\\' := by
        constructor <;> intro hc <;> subst hc <;> simp at h1
      exact ⟨h3.1, h3.2, by simpa using h2⟩

/-- C2 (amended): artifact names embed the PR id when it is present and
nonzero; a zero PR id is treated as absent by the code (JS truthiness); with
no (truthy) PR id and an output directory requested, names embed the
sanitized base_head slug; otherwise the fixed defaults are used; sanitized
branch segments contain no path separator and no whitespace. -/
theorem artifactNaming_amended_spec :
    (∀ (n : Nat) (outDir : Bool) (base head : String), 0 < n →
        diffFileName (some n) outDir base head = "." ++ toString n ++ ".codehermit-diff.txt"
      ∧ outputFileName (some n) outDir base head = "." ++ toString n ++ ".codehermit-output.md")
  ∧ (∀ base head : String,
        diffFileName none true base head
          = "." ++ sanitizeBranchForFile base ++ "_" ++ sanitizeBranchForFile head
              ++ ".codehermit-diff.txt"
      ∧ outputFileName none true base head
          = "." ++ sanitizeBranchForFile base ++ "_" ++ sanitizeBranchForFile head
              ++ ".codehermit-output.md")
  ∧ (∀ base head : String,
        diffFileName none false base head = ".codehermit-diff.txt"
      ∧ outputFileName none false base head = ".codehermit-output.md")
  ∧ (∀ (b : String) (c : Char), c ∈ (sanitizeBranchForFile b).data →
        c ≠ '/' ∧ c ≠ '\\' ∧ isJsSpace c = false) := by
  refine ⟨?_, ?_, ?_, ?_⟩
  · intro n outDir base head h
    have hn : n ≠ 0 := by omega
    constructor <;> simp [diffFileName, outputFileName, prIdTruthy, hn]
  · intro base head
    constructor <;>
      simp [diffFileName, outputFileName, prIdTruthy, branchSlug, String.append_assoc]
  · intro base head
    constructor <;> simp [diffFileName, outputFileName, prIdTruthy, DIFF_FILE_BASE,
      OUTPUT_FILE_BASE]
  · intro b c hc
    unfold sanitizeBranchForFile at hc
    simp only [List.mem_map] at hc
    obtain ⟨a, ha, rfl⟩ := hc
    obtain ⟨c1, _, rfl⟩ := ha
    exact wsSep_safe c1

/-- C2 counterexample: a present-but-zero PR id does not embed ".0." in the
artifact name; the code falls through to the branch-slug name, while a
nonzero id does embed ".id.". -/
theorem artifactNaming_zeroPrId_counterexample :
    diffFileName (some 0) true "a" "b" = ".a_b.codehermit-diff.txt"
  ∧ containsSub (diffFileName (some 0) true "a" "b") ".0." = false
  ∧ containsSub (diffFileName (some 5) true "a" "b") ".5." = true := by decide

/-- C2 witness: instantiation of the amended naming theorem. -/
theorem artifactNaming_amended_spec_witness :
    diffFileName (some 182370) false "a" "b" = ".182370.codehermit-diff.txt"
  ∧ ('_' ≠ '/' ∧ '_' ≠ '\\' ∧ isJsSpace '_' = false) :=
  ⟨(artifactNaming_amended_spec.1 182370 false "a" "b" (by decide)).1,
   artifactNaming_amended_spec.2.2.2 "a b" '_' (by decide)⟩

/-- C3: a successfully resolved PR maps the provider's targetRefName to the
base branch and sourceRefName to the head branch, each with a leading
refs/heads/ prefix stripped, and joins the repository name onto the repos
root; in particular refs/heads/feature/y and refs/heads/main resolve to
feature/y and main. -/
theorem prResolution_spec :
    (∀ (reposRoot : String) (raw : RawPullRequest),
        (resolvePrTarget reposRoot raw.repositoryName (mkPrDetails raw)).baseBranch
            = stripRefsHeads raw.targetRefName
      ∧ (resolvePrTarget reposRoot raw.repositoryName (mkPrDetails raw)).headBranch
            = stripRefsHeads raw.sourceRefName
      ∧ (resolvePrTarget reposRoot raw.repositoryName (mkPrDetails raw)).repoPath
            = joinPath reposRoot raw.repositoryName
      ∧ (resolvePrTarget reposRoot raw.repositoryName (mkPrDetails raw)).prId
            = some raw.pullRequestId)
  ∧ (∀ s : String, stripRefsHeads ("refs/heads/" ++ s) = s)
  ∧ stripRefsHeads "refs/heads/feature/y" = "feature/y"
  ∧ stripRefsHeads "refs/heads/main" = "main" := by
  refine ⟨fun reposRoot raw => ⟨rfl, rfl, rfl, rfl⟩, stripRefsHeads_append, by decide, by decide⟩

/-- C7: when the diff command fails, any truthy captured stdout is returned
as the diff text; with no captured output (absent or empty) the diff fails
with a diff error; a successful command returns its output. -/
theorem diffPartialOutput_spec :
    (∀ (exec : String → ExecOutcome) (base head s : String),
        exec (diffCommand base head) = ExecOutcome.failure (some s) → s ≠ "" →
        getDiffContent exec base head = Except.ok s)
  ∧ (∀ (exec : String → ExecOutcome) (base head : String),
        exec (diffCommand base head) = ExecOutcome.failure (some "") →
        getDiffContent exec base head = Except.error "Failed to get diff")
  ∧ (∀ (exec : String → ExecOutcome) (base head : String),
        exec (diffCommand base head) = ExecOutcome.failure none →
        getDiffContent exec base head = Except.error "Failed to get diff")
  ∧ (∀ (exec : String → ExecOutcome) (base head out : String),
        exec (diffCommand base head) = ExecOutcome.success out →
        getDiffContent exec base head = Except.ok out) := by
  refine ⟨?_, ?_, ?_, ?_⟩
  · intro exec base head s h hs
    simp [getDiffContent, h, truthyStr, hs]
  · intro exec base head h
    simp [getDiffContent, h, truthyStr]
  · intro exec base head h
    simp [getDiffContent, h, truthyStr]
  · intro exec base head out h
    simp [getDiffContent, h]

/-- C7 witness: instantiation of the partial-output theorem at a concrete
failing command. -/
theorem diffPartialOutput_spec_witness :
    getDiffContent (fun _ => ExecOutcome.failure (some "partial diff text")) "main" "dev"
        = Except.ok "partial diff text"
  ∧ getDiffContent (fun _ => ExecOutcome.failure none) "main" "dev"
        = Except.error "Failed to get diff" :=
  ⟨diffPartialOutput_spec.1 _ "main" "dev" "partial diff text" rfl (by decide),
   diffPartialOutput_spec.2.2.1 _ "main" "dev" rfl⟩

/-- C9: branch names not already prefixed with origin/ or refs/ are rewritten
to origin/name before the diff command is built; prefixed names are used
unchanged; every ref embedded in the command starts with origin/ or refs/,
so a bare local branch name never reaches the diff command. -/
theorem toRef_originRewrite_spec :
    (∀ ref : String,
        isPfxL "origin/".data ref.data = false → isPfxL "refs/".data ref.data = false →
        toRef ref = "origin/" ++ ref)
  ∧ (∀ ref : String, isPfxL "origin/".data ref.data = true → toRef ref = ref)
  ∧ (∀ ref : String, isPfxL "refs/".data ref.data = true → toRef ref = ref)
  ∧ (∀ ref : String,
        isPfxL "origin/".data (toRef ref).data = true ∨ isPfxL "refs/".data (toRef ref).data = true)
  ∧ (∀ base head : String,
        diffCommand base head = "git diff " ++ toRef base ++ "..." ++ toRef head) := by
  refine ⟨?_, ?_, ?_, ?_, fun base head => rfl⟩
  · intro ref h1 h2
    simp [toRef, h1, h2]
  · intro ref h1
    simp [toRef, h1]
  · intro ref h1
    simp [toRef, h1]
  · intro ref
    cases hx1 : isPfxL "origin/".data ref.data with
    | true =>
      simp only [toRef, hx1, Bool.true_or, if_true]
      exact Or.inl (by simp [hx1])
    | false =>
      cases hx2 : isPfxL "refs/".data ref.data with
      | true =>
        simp only [toRef, hx1, hx2, Bool.false_or, if_true]
        exact Or.inr (by simp [hx2])
      | false =>
        simp only [toRef, hx1, hx2, Bool.false_or, Bool.false_eq_true, if_false]
        left
        have hd : ("origin/" ++ ref).data = "origin/".data ++ ref.data := rfl
        rw [hd, isPfxL_append]

/-- C9 witness: instantiation of the ref-rewriting theorem. -/
theorem toRef_originRewrite_spec_witness :
    toRef "main" = "origin/main" ∧ toRef "origin/dev" = "origin/dev"
  ∧ toRef "refs/heads/x" = "refs/heads/x" :=
  ⟨toRef_originRewrite_spec.1 "main" (by decide) (by decide),
   toRef_originRewrite_spec.2.1 "origin/dev" (by decide),
   toRef_originRewrite_spec.2.2.1 "refs/heads/x" (by decide)⟩

/-- C10 (amended): an explicit variable set to a non-empty value wins over
its AZURE_DEVOPS_ counterpart; a variable set to the empty string is treated
as unset (JS truthiness), in which case the counterpart is used — in
particular AZURE_DEVOPS_ORG is expanded to an org URL whenever AZURE_ORG_URL
is unset or empty. -/
theorem azureEnvPrecedence_amended_spec :
    (∀ (env : AzureEnv) (u : String), env.azureOrgUrl = some u → u ≠ "" →
        (getAzureConfig env).orgUrl = some u)
  ∧ (∀ env : AzureEnv, truthyStr env.azureOrgUrl = false → truthyStr env.azureDevopsOrg = true →
        (getAzureConfig env).orgUrl
          = some ("https://dev.azure.com/" ++ env.azureDevopsOrg.getD ""))
  ∧ (∀ env : AzureEnv, truthyStr env.azureOrgUrl = false → truthyStr env.azureDevopsOrg = false →
        (getAzureConfig env).orgUrl = none)
  ∧ (∀ (env : AzureEnv) (p : String), env.azureProject = some p → p ≠ "" →
        (getAzureConfig env).project = some p)
  ∧ (∀ env : AzureEnv, truthyStr env.azureProject = false →
        (getAzureConfig env).project = env.azureDevopsProject)
  ∧ (∀ (env : AzureEnv) (p : String), env.azurePat = some p → p ≠ "" →
        (getAzureConfig env).pat = some p)
  ∧ (∀ env : AzureEnv, truthyStr env.azurePat = false →
        (getAzureConfig env).pat = env.azureDevopsPat) := by
  refine ⟨?_, ?_, ?_, ?_, ?_, ?_, ?_⟩
  · intro env u h hu
    simp [getAzureConfig, h, truthyStr, hu]
  · intro env h1 h2
    simp [getAzureConfig, h1, h2]
  · intro env h1 h2
    simp [getAzureConfig, h1, h2]
  · intro env p h hp
    simp [getAzureConfig, jsOr, h, truthyStr, hp]
  · intro env h
    simp [getAzureConfig, jsOr, h]
  · intro env p h hp
    simp [getAzureConfig, jsOr, h, truthyStr, hp]
  · intro env h
    simp [getAzureConfig, jsOr, h]

/-- C10 counterexample: with AZURE_ORG_URL set to the empty string and
AZURE_DEVOPS_ORG set, the code expands AZURE_DEVOPS_ORG although
AZURE_ORG_URL is not unset, so the explicit variant does not win. -/
theorem azureConfig_emptyOrgUrl_counterexample :
    ({ azureOrgUrl := some "", azureDevopsOrg := some "contoso" } : AzureEnv).azureOrgUrl ≠ none
  ∧ (getAzureConfig { azureOrgUrl := some "", azureDevopsOrg := some "contoso" }).orgUrl
      = some "https://dev.azure.com/contoso" := by decide

/-- C10 witness: instantiation of the precedence theorem. -/
theorem azureEnvPrecedence_amended_spec_witness :
    (getAzureConfig { azureOrgUrl := some "https://dev.azure.com/explicit",
                      azureDevopsOrg := some "contoso" }).orgUrl
      = some "https://dev.azure.com/explicit" :=
  azureEnvPrecedence_amended_spec.1 _ "https://dev.azure.com/explicit" rfl (by decide)

/-- Unfolding of runEvents on a cons trace. -/
theorem runEvents_cons (st : AgentState) (e : AgentEvent) (es : List AgentEvent) :
    runEvents st (e :: es)
      = ((runEvents (step st e).1 es).1, (step st e).2 ++ (runEvents (step st e).1 es).2) := rfl

/-- idxOf misses exactly the absent elements. -/
theorem idxOf_not_mem (x : String) (l : List String) (h : x ∉ l) : idxOf x l = none := by
  induction l with
  | nil => rfl
  | cons a as ih =>
    simp only [List.mem_cons, not_or] at h
    have ha : a ≠ x := fun hh => h.1 hh.symm
    simp [idxOf, ha, ih h.2]

/-- C1 (amended): for a URL whose path is exactly the fixed
org/project/_git/repository/pullrequest/id shape (with the markers present
and the leading segments not themselves marker words), parsePrUrl extracts
exactly those four segments; it returns the not-a-valid-PR-URL result (none)
whenever a marker substring is missing, the string does not parse as a URL,
or the path has no _git or no pullrequest segment; it never throws (the
embedded function is total).  It is *not* the case that every string outside
the fixed shape yields none: scrambled marker positions still produce a
result (see the counterexample). -/
theorem parsePrUrl_amended_spec :
    (∀ (u p org proj repo id : String),
        containsSub (trimStr u) "dev.azure.com" = true →
        containsSub (trimStr u) "pullrequest" = true →
        urlPath (trimStr u) = some p →
        segsOf p = [org, proj, "_git", repo, "pullrequest", id] →
        org ≠ "pullrequest" → org ≠ "_git" → proj ≠ "pullrequest" → proj ≠ "_git" →
        repo ≠ "pullrequest" →
        parsePrUrl u = some { org := org, project := proj, repository := repo, prId := id })
  ∧ (∀ u : String, containsSub (trimStr u) "dev.azure.com" = false → parsePrUrl u = none)
  ∧ (∀ u : String, containsSub (trimStr u) "pullrequest" = false → parsePrUrl u = none)
  ∧ (∀ u : String, urlPath (trimStr u) = none → parsePrUrl u = none)
  ∧ (∀ u p : String, urlPath (trimStr u) = some p → "_git" ∉ segsOf p → parsePrUrl u = none)
  ∧ (∀ u p : String, urlPath (trimStr u) = some p → "pullrequest" ∉ segsOf p →
        parsePrUrl u = none) := by
  refine ⟨?_, ?_, ?_, ?_, ?_, ?_⟩
  · intro u p org proj repo id h1 h2 h3 h4 ho1 ho2 hp1 hp2 hr
    have hg : ("_git" : String) ≠ "pullrequest" := by decide
    simp [parsePrUrl, h1, h2, h3, h4, idxOf, ho1, ho2, hp1, hp2, hr, hg,
      List.getD_cons_succ, List.getD_cons_zero]
  · intro u h
    simp [parsePrUrl, h]
  · intro u h
    simp [parsePrUrl, h]
  · intro u h
    cases hc1 : containsSub (trimStr u) "dev.azure.com" <;>
      cases hc2 : containsSub (trimStr u) "pullrequest" <;>
        simp [parsePrUrl, hc1, hc2, h]
  · intro u p hu hmem
    have hgit : idxOf "_git" (segsOf p) = none := idxOf_not_mem _ _ hmem
    cases hc1 : containsSub (trimStr u) "dev.azure.com" <;>
      cases hc2 : containsSub (trimStr u) "pullrequest" <;>
        simp [parsePrUrl, hc1, hc2, hu, hgit]
    cases idxOf "pullrequest" (segsOf p) <;> rfl
  · intro u p hu hmem
    have hpr : idxOf "pullrequest" (segsOf p) = none := idxOf_not_mem _ _ hmem
    cases hc1 : containsSub (trimStr u) "dev.azure.com" <;>
      cases hc2 : containsSub (trimStr u) "pullrequest" <;>
        simp [parsePrUrl, hc1, hc2, hu, hpr]

/-- C1 counterexample: a dev.azure.com URL whose path is not of the fixed
shape (the pullrequest and _git segments are in scrambled positions) still
parses to a non-null result, so strings outside the fixed shape do not all
map to the not-a-valid-PR-URL result. -/
theorem parsePrUrl_scrambled_counterexample :
    parsePrUrl "https://dev.azure.com/a/b/pullrequest/7/_git/r"
        = some { org := "a", project := "b", repository := "r", prId := "7" }
  ∧ (urlPath (trimStr "https://dev.azure.com/a/b/pullrequest/7/_git/r")).map
        (fun p => isFixedShapeParts (segsOf p)) = some false := by decide

/-- C1 witness: instantiation of the amended parsing theorem at a
well-formed Azure PR URL. -/
theorem parsePrUrl_amended_spec_witness :
    parsePrUrl "https://dev.azure.com/Org/Proj/_git/Repo/pullrequest/123"
        = some { org := "Org", project := "Proj", repository := "Repo", prId := "123" } :=
  parsePrUrl_amended_spec.1 "https://dev.azure.com/Org/Proj/_git/Repo/pullrequest/123"
    "/Org/Proj/_git/Repo/pullrequest/123" "Org" "Proj" "Repo" "123"
    (by decide) (by decide) (by decide) (by decide) (by decide) (by decide) (by decide)
    (by decide) (by decide)

/-- Data chunks after the first leave the state unchanged and only echo and
persist the chunk. -/
theorem runEvents_dataSeq (rest : List String) (evs : List AgentEvent) :
    runEvents streamingState (rest.map AgentEvent.evData ++ evs)
      = ((runEvents streamingState evs).1, echoActs rest ++ (runEvents streamingState evs).2) := by
  induction rest with
  | nil => simp [echoActs]
  | cons c cs ih =>
    have h2 : (step streamingState (AgentEvent.evData c)).1 = streamingState := rfl
    have h3 : (step streamingState (AgentEvent.evData c)).2 = [Act.echo c, Act.fileWrite c] := rfl
    rw [List.map_cons, List.cons_append, runEvents_cons, h2, h3, ih]
    rfl

/-- Stream end followed by process exit, after the first chunk was seen. -/
theorem runEvents_endExit (code : Option Int) :
    runEvents streamingState [AgentEvent.streamEnd, AgentEvent.procExit code]
      = ({ firstChunk := false, spinnerOn := false, fileOpen := false },
         [Act.clearLine, Act.fileClose, Act.clearLine, Act.msgSaved,
          Act.procHalt (code.getD 0)]) := by
  simp [runEvents, step, onEnd, onExit, doCancel, doClose, streamingState]

/-- Full run with at least one output chunk: spinner cancelled at the first
chunk, stream closed at stream end, completion message and host exit at the
process-exit event. -/
theorem runEvents_withOutput (c : String) (rest : List String) (code : Option Int) :
    runEvents initState (AgentEvent.evData c :: (rest.map AgentEvent.evData
        ++ [AgentEvent.streamEnd, AgentEvent.procExit code]))
      = ({ firstChunk := false, spinnerOn := false, fileOpen := false },
         Act.cancelSpinner :: Act.clearLine :: Act.echo c :: Act.fileWrite c ::
           (echoActs rest ++ [Act.clearLine, Act.fileClose, Act.clearLine, Act.msgSaved,
             Act.procHalt (code.getD 0)])) := by
  have h2 : (step initState (AgentEvent.evData c)).1 = streamingState := rfl
  have h3 : (step initState (AgentEvent.evData c)).2
      = [Act.cancelSpinner, Act.clearLine, Act.echo c, Act.fileWrite c] := rfl
  rw [runEvents_cons, h2, h3, runEvents_dataSeq, runEvents_endExit]
  rfl

/-- Full run with zero output chunks. -/
theorem runEvents_zeroOutput (code : Option Int) :
    runEvents initState [AgentEvent.streamEnd, AgentEvent.procExit code]
      = ({ firstChunk := true, spinnerOn := false, fileOpen := false },
         [Act.cancelSpinner, Act.clearLine, Act.fileClose, Act.clearLine, Act.msgSaved,
          Act.procHalt (code.getD 0)]) := by
  simp [runEvents, step, onEnd, onExit, doCancel, doClose, initState]

/-- Run consisting of a single spawn-error event. -/
theorem runEvents_errorOnly (enoent : Bool) :
    runEvents initState [AgentEvent.procError enoent]
      = ({ firstChunk := true, spinnerOn := false, fileOpen := false },
         [Act.cancelSpinner, Act.clearLine, Act.fileClose,
          if enoent then Act.msgNotFound else Act.msgError, Act.procHalt 1]) := by
  simp [runEvents, step, onError, doCancel, doClose, initState]

/-- Run consisting of a single process-exit event. -/
theorem runEvents_exitOnly (code : Option Int) :
    runEvents initState [AgentEvent.procExit code]
      = ({ firstChunk := true, spinnerOn := false, fileOpen := false },
         [Act.cancelSpinner, Act.clearLine, Act.fileClose, Act.msgSaved,
          Act.procHalt (code.getD 0)]) := by
  simp [runEvents, step, onExit, doCancel, doClose, initState]

/-- Run where the stream ends and then the spawn error is reported. -/
theorem runEvents_endError (enoent : Bool) :
    runEvents initState [AgentEvent.streamEnd, AgentEvent.procError enoent]
      = ({ firstChunk := true, spinnerOn := false, fileOpen := false },
         [Act.cancelSpinner, Act.clearLine, Act.fileClose, Act.clearLine,
          if enoent then Act.msgNotFound else Act.msgError, Act.procHalt 1]) := by
  simp [runEvents, step, onEnd, onError, doCancel, doClose, initState]

/-- countAct distributes over append. -/
theorem countAct_append (a : Act) (l m : List Act) :
    countAct a (l ++ m) = countAct a l + countAct a m := by
  induction l with
  | nil => simp [countAct]
  | cons x xs ih => simp [countAct, ih, Nat.add_assoc]

/-- Echoed chunks contain no spinner cancellation. -/
theorem countCancel_echoActs (rest : List String) :
    countAct Act.cancelSpinner (echoActs rest) = 0 := by
  induction rest with
  | nil => rfl
  | cons c cs ih => simp [echoActs, countAct, ih]

/-- Echoed chunks contain no file close. -/
theorem countClose_echoActs (rest : List String) :
    countAct Act.fileClose (echoActs rest) = 0 := by
  induction rest with
  | nil => rfl
  | cons c cs ih => simp [echoActs, countAct, ih]

/-- haltCodes distributes over append. -/
theorem haltCodes_append (l m : List Act) :
    haltCodes (l ++ m) = haltCodes l ++ haltCodes m := by
  induction l with
  | nil => simp [haltCodes]
  | cons x xs ih => cases x <;> simp [haltCodes, ih]

/-- Echoed chunks request no host exit. -/
theorem haltCodes_echoActs (rest : List String) : haltCodes (echoActs rest) = [] := by
  induction rest with
  | nil => rfl
  | cons c cs ih => simp [echoActs, haltCodes, ih]

/-- For every normal run the one host exit carries the agent's code, 0 when absent. -/
theorem haltCodes_normal (chunks : List String) (code : Option Int) :
    haltCodes (actsOf (chunks.map AgentEvent.evData
        ++ [AgentEvent.streamEnd, AgentEvent.procExit code])) = [code.getD 0] := by
  cases chunks with
  | nil =>
    show haltCodes (runEvents initState [AgentEvent.streamEnd, AgentEvent.procExit code]).2 = _
    rw [runEvents_zeroOutput]
    rfl
  | cons c rest =>
    show haltCodes (runEvents initState (AgentEvent.evData c :: (List.map AgentEvent.evData rest
        ++ [AgentEvent.streamEnd, AgentEvent.procExit code]))).2 = _
    rw [runEvents_withOutput]
    simp [haltCodes, haltCodes_append, haltCodes_echoActs]

/-- C4 counterexample: in a run with one output chunk, a normal stream end
and a normal exit, the spinner line-clear sequence is written three times
(first chunk, stream end, exit handler), not exactly once. -/
theorem spinnerClear_thrice_counterexample :
    ¬ countAct Act.clearLine (actsOf [AgentEvent.evData "x", AgentEvent.streamEnd,
        AgentEvent.procExit (some 0)]) = 1
  ∧ countAct Act.clearLine (actsOf [AgentEvent.evData "x", AgentEvent.streamEnd,
        AgentEvent.procExit (some 0)]) = 3 := by decide

/-- C4 (amended): the spinner interval is cancelled exactly once — at the
first output chunk, or at stream end for a zero-output agent — but the
line-clear sequence is re-emitted (harmlessly) by the stream-end and
process-exit handlers; in the zero-output run the cancellation and clear
(positions 0 and 1) precede the exit handler's completion message
(position 4). -/
theorem spinnerLifecycle_amended_spec :
    (∀ (c : String) (rest : List String) (code : Option Int),
        actsOf (AgentEvent.evData c :: (rest.map AgentEvent.evData
            ++ [AgentEvent.streamEnd, AgentEvent.procExit code]))
          = Act.cancelSpinner :: Act.clearLine :: Act.echo c :: Act.fileWrite c ::
              (echoActs rest ++ [Act.clearLine, Act.fileClose, Act.clearLine, Act.msgSaved,
                Act.procHalt (code.getD 0)])
      ∧ countAct Act.cancelSpinner (actsOf (AgentEvent.evData c :: (rest.map AgentEvent.evData
            ++ [AgentEvent.streamEnd, AgentEvent.procExit code]))) = 1)
  ∧ (∀ code : Option Int,
        actsOf [AgentEvent.streamEnd, AgentEvent.procExit code]
          = [Act.cancelSpinner, Act.clearLine, Act.fileClose, Act.clearLine, Act.msgSaved,
             Act.procHalt (code.getD 0)]
      ∧ countAct Act.cancelSpinner (actsOf [AgentEvent.streamEnd, AgentEvent.procExit code])
          = 1) := by
  constructor
  · intro c rest code
    have h : actsOf (AgentEvent.evData c :: (rest.map AgentEvent.evData
        ++ [AgentEvent.streamEnd, AgentEvent.procExit code]))
          = Act.cancelSpinner :: Act.clearLine :: Act.echo c :: Act.fileWrite c ::
              (echoActs rest ++ [Act.clearLine, Act.fileClose, Act.clearLine, Act.msgSaved,
                Act.procHalt (code.getD 0)]) := by
      show (runEvents initState (AgentEvent.evData c :: (List.map AgentEvent.evData rest
          ++ [AgentEvent.streamEnd, AgentEvent.procExit code]))).2 = _
      rw [runEvents_withOutput]
    refine ⟨h, ?_⟩
    rw [h]
    simp [countAct, countAct_append, countCancel_echoActs]
  · intro code
    have h : actsOf [AgentEvent.streamEnd, AgentEvent.procExit code]
        = [Act.cancelSpinner, Act.clearLine, Act.fileClose, Act.clearLine, Act.msgSaved,
           Act.procHalt (code.getD 0)] := by
      show (runEvents initState [AgentEvent.streamEnd, AgentEvent.procExit code]).2 = _
      rw [runEvents_zeroOutput]
    refine ⟨h, ?_⟩
    rw [h]
    simp [countAct]

/-- C5: on every exit path — normal completion with or without output, spawn
error, process exit without stream end, stream end then spawn error — the
review-output file stream is closed exactly once and is not left open; on
the spawn-error path the host exit code is the non-zero 1. -/
theorem fileStreamLifecycle_spec :
    (∀ (chunks : List String) (code : Option Int),
        countAct Act.fileClose (actsOf (chunks.map AgentEvent.evData
            ++ [AgentEvent.streamEnd, AgentEvent.procExit code])) = 1
      ∧ (finalStateOf (chunks.map AgentEvent.evData
            ++ [AgentEvent.streamEnd, AgentEvent.procExit code])).fileOpen = false)
  ∧ (∀ enoent : Bool,
        countAct Act.fileClose (actsOf [AgentEvent.procError enoent]) = 1
      ∧ (finalStateOf [AgentEvent.procError enoent]).fileOpen = false
      ∧ haltCodes (actsOf [AgentEvent.procError enoent]) = [1])
  ∧ (∀ code : Option Int,
        countAct Act.fileClose (actsOf [AgentEvent.procExit code]) = 1
      ∧ (finalStateOf [AgentEvent.procExit code]).fileOpen = false)
  ∧ (∀ enoent : Bool,
        countAct Act.fileClose (actsOf [AgentEvent.streamEnd, AgentEvent.procError enoent]) = 1
      ∧ (finalStateOf [AgentEvent.streamEnd, AgentEvent.procError enoent]).fileOpen
          = false) := by
  refine ⟨?_, ?_, ?_, ?_⟩
  · intro chunks code
    cases chunks with
    | nil =>
      constructor
      · show countAct Act.fileClose
            (runEvents initState [AgentEvent.streamEnd, AgentEvent.procExit code]).2 = 1
        rw [runEvents_zeroOutput]
        simp [countAct]
      · show (runEvents initState [AgentEvent.streamEnd, AgentEvent.procExit code]).1.fileOpen
            = false
        rw [runEvents_zeroOutput]
    | cons c rest =>
      constructor
      · show countAct Act.fileClose (runEvents initState (AgentEvent.evData c ::
            (List.map AgentEvent.evData rest
              ++ [AgentEvent.streamEnd, AgentEvent.procExit code]))).2 = 1
        rw [runEvents_withOutput]
        simp [countAct, countAct_append, countClose_echoActs]
      · show (runEvents initState (AgentEvent.evData c :: (List.map AgentEvent.evData rest
            ++ [AgentEvent.streamEnd, AgentEvent.procExit code]))).1.fileOpen = false
        rw [runEvents_withOutput]
  · intro enoent
    cases enoent <;> exact ⟨by decide, by decide, by decide⟩
  · intro code
    refine ⟨?_, ?_⟩
    · show countAct Act.fileClose (runEvents initState [AgentEvent.procExit code]).2 = 1
      rw [runEvents_exitOnly]
      simp [countAct]
    · show (runEvents initState [AgentEvent.procExit code]).1.fileOpen = false
      rw [runEvents_exitOnly]
  · intro enoent
    cases enoent <;> exact ⟨by decide, by decide⟩

/-- C6: a normal run performs exactly one host-process exit, whose code is
the agent's exit code, and 0 when the agent's code is absent (null). -/
theorem exitCodePropagation_spec :
    (∀ (chunks : List String) (k : Int),
        haltCodes (actsOf (chunks.map AgentEvent.evData
            ++ [AgentEvent.streamEnd, AgentEvent.procExit (some k)])) = [k])
  ∧ (∀ chunks : List String,
        haltCodes (actsOf (chunks.map AgentEvent.evData
            ++ [AgentEvent.streamEnd, AgentEvent.procExit none])) = [0]) := by
  constructor
  · intro chunks k
    rw [haltCodes_normal]
    rfl
  · intro chunks
    rw [haltCodes_normal]
    rfl

/-- C8 (code bug): with the positional arguments main and feature/z followed
by the output-dir flag — the exact shape the code's own help examples use —
parseArgs skips the flag token entirely (after consuming base and head it
advances the index by three), so no output directory is recorded; with the
flag placed first, the same arguments are all recognized. -/
theorem parseArgs_flagAfterPositionals_bug :
    parseArgs ["main", "feature/z", "--output-dir", "./Reviews"]
        = { base := some "main", head := some "feature/z" }
  ∧ (parseArgs ["main", "feature/z", "--output-dir", "./Reviews"]).outputDir = none
  ∧ parseArgs ["--output-dir", "./Reviews", "main", "feature/z"]
        = { outputDir := some "./Reviews", base := some "main", head := some "feature/z" } := by
  decide

end CodeHermit
